import Mathlib

/-!
Verification development for the `ldapcli` command-line utility
(`src/src/ldapcli/ldapcli.py`).

The Python source is shallowly embedded: Python strings are modelled as
`List Char` (so slicing and `index` have direct counterparts), Python
dicts that preserve insertion order are modelled as association lists,
and every directory mutation a command issues is recorded in an explicit
list of operations.  The LDAP server and the YAML library are external
collaborators of the program; they are modelled by an explicit directory
state (`List Entry`) with standard subtree-scoped equality-filter search
semantics, and by assuming that a YAML dump followed by a YAML load is
the identity on the dumped document.  In this model the server is
healthy: protocol-level search/modify failures (which the source merely
surfaces as terminal errors) are out of scope, so the corresponding
`connect.last_error` branches of the source are never taken.
-/

namespace Ldapcli

/-- Python strings are modelled as lists of characters. -/
abbrev Str := List Char

/-- Decidable equality for `Except`, so that concrete runs of the
fallible embedded functions can be checked by `decide`. -/
instance {ε α : Type} [DecidableEq ε] [DecidableEq α] : DecidableEq (Except ε α) :=
  fun x y =>
    match x, y with
    | .ok a, .ok b =>
        if h : a = b then .isTrue (by rw [h])
        else .isFalse (fun hc => h (Except.ok.inj hc))
    | .error a, .error b =>
        if h : a = b then .isTrue (by rw [h])
        else .isFalse (fun hc => h (Except.error.inj hc))
    | .ok _, .error _ => .isFalse (fun hc => Except.noConfusion hc)
    | .error _, .ok _ => .isFalse (fun hc => Except.noConfusion hc)

/-- Conversion from a Lean string literal to the `Str` model. -/
def lit (s : String) : Str := s.toList

/-- An LDAP attribute value: the entries handled by the source hold
either text values or integer values (`uidNumber`, `gidNumber`). -/
inductive LVal where
  | str (s : Str)
  | int (n : Int)
deriving DecidableEq, Repr

/-- Errors a command can raise.  `clickException` corresponds to
`click.ClickException`, `invalidEntry` to the source's `InvalidEntry`
class, and the remaining constructors to the built-in Python exceptions
(`TypeError`, `AttributeError`, `ValueError` from `str.index`,
`IndexError` from indexing an empty result list). -/
inductive CliErr where
  | typeError
  | attributeError
  | valueError
  | indexError
  | invalidEntry (msg : Str)
  | clickException (msg : Str)
deriving DecidableEq, Repr

/-- Lower-case a modelled string, for LDAP's case-insensitive attribute
names. -/
def lowerStr (s : Str) : Str := s.map Char.toLower

/-- Case-insensitive comparison of attribute names (LDAP attribute
descriptions are case-insensitive; `ldap3` resolves `objectclass`
and `objectClass` to the same attribute). -/
def lowerEq (a b : Str) : Bool := lowerStr a == lowerStr b

/-- A directory entry: a distinguished name plus the attribute table
(`entry_attributes_as_dict` in `ldap3`). -/
structure Entry where
  dn : Str
  attrs : List (Str × List LVal)
deriving DecidableEq, Repr

/-- Look up an attribute of an entry by (case-insensitive) name. -/
def getAttr (e : Entry) (name : Str) : Option (List LVal) :=
  (e.attrs.find? (fun p => lowerEq p.1 name)).map (fun p => p.2)

/-- Values of an attribute; `[]` when the attribute is absent.  This is
`entry.<name>.values` of `ldap3`, which is `[]` for a requested but
absent attribute. -/
def getValues (e : Entry) (name : Str) : List LVal := (getAttr e name).getD []

/-- The search filters the source builds are all equality filters
`(attr=value)` (possibly inside a conjunction it never needs beyond a
single equality for the code paths modelled here).  The filter string is
wire format owned by the server; its semantic content is the
attribute/value pair. -/
inductive SFilter where
  | eq (attr : Str) (val : Str)
deriving DecidableEq, Repr

/-- Whether a stored value matches the textual assertion value of an
equality filter. -/
def lvalMatches (v : LVal) (s : Str) : Bool :=
  match v with
  | .str t => t == s
  | .int n => lit (toString n) == s

/-- Server-side filter evaluation on one entry. -/
def entryMatches (e : Entry) (f : SFilter) : Bool :=
  match f with
  | .eq a v => (getValues e a).any (fun x => lvalMatches x v)

/-- Subtree search scope: the entry's DN is the base or ends in
`,<base>`. -/
def inBase (dn base : Str) : Bool :=
  dn == base || (lit "," ++ base).isSuffixOf dn

/-- The view of an entry returned for a search that requested the
attributes `reqs`: exactly the requested attributes are present, each
with its stored values (`[]` when the entry does not carry it).  This is
the shape the source relies on: it indexes requested attributes
(`e.gidNumber`, possibly empty) and uses `dict.get` defaults for
attributes it did not request. -/
def restrictEntry (e : Entry) (reqs : List Str) : Entry :=
  ⟨e.dn, reqs.map (fun a => (a, getValues e a))⟩

/-- Search semantics of the external directory server: subtree scope
under `base`, equality filter `f`, attribute selection `reqs`. -/
def searchEntries (srv : List Entry) (base : Str) (f : SFilter)
    (reqs : List Str) : List Entry :=
  (srv.filter (fun e => inBase e.dn base && entryMatches e f)).map
    (fun e => restrictEntry e reqs)

/-- `ldap3` modification types. -/
inductive ModType where
  | addM
  | replaceM
  | deleteM
deriving DecidableEq, Repr

/-- A modify request body: attribute name to list of
(operation, values) pairs, exactly the dict shape the source passes to
`connect.modify`. -/
abbrev Mods := List (Str × List (ModType × List LVal))

/-- A mutating directory call issued by a command. -/
inductive Op where
  | add (dn : Str) (classes : List Str) (args : List (Str × LVal))
  | modify (dn : Str) (mods : Mods)
  | delete (dn : Str)
deriving DecidableEq, Repr

/-- Python truthiness of an optional string option (`click` passes
`None` for an omitted option and the raw string otherwise; `if x:` is
false for `None` and for the empty string). -/
def truthyS (o : Option Str) : Bool :=
  match o with
  | some s => !s.isEmpty
  | none => false

/-- Python `xs[0]` on a list: `IndexError` when empty. -/
def pyIndex0 (xs : List LVal) : Except CliErr LVal :=
  match xs with
  | [] => .error .indexError
  | v :: _ => .ok v

/-- Python `max` of an int and an attribute value: comparing an int with
a str raises `TypeError`. -/
def pyMax (m : Int) (v : LVal) : Except CliErr Int :=
  match v with
  | .int n => .ok (max m n)
  | .str _ => .error .typeError

/-- Python association-list lookup (`dict.get`). -/
def alookup {α : Type} (l : List (Str × α)) (k : Str) : Option α :=
  (l.find? (fun p => p.1 == k)).map (fun p => p.2)

/-- Python dict assignment `d[k] = v`: replace the first binding of `k`
or append a new one (dicts preserve insertion order). -/
def ainsert {α : Type} : List (Str × α) → Str → α → List (Str × α)
  | [], k, v => [(k, v)]
  | (k', v') :: rest, k, v =>
      if k' == k then (k, v) :: rest else (k', v') :: ainsert rest k v

/-! ## Configuration layer (`LdapConfig`) -/

/-- A profile: setting key to string value, as stored in the YAML file. -/
abbrev PDict := List (Str × Str)

/-- The profile map of the configuration document. -/
abbrev ProfDict := List (Str × PDict)

/-- The parsed YAML document handed to `LdapConfig.__init__`: each field
is `none` when the corresponding top-level key is absent (or null).
`LdapConfig.to_dict` always emits all three keys. -/
structure ConfigDoc where
  version : Option Str
  defaults : Option PDict
  profiles : Option ProfDict
deriving DecidableEq, Repr

/-- Python truthiness of the optional parsed document: `None` and the
empty mapping are falsy. -/
def docTruthy (d : Option ConfigDoc) : Bool :=
  match d with
  | none => false
  | some dd => dd.version.isSome || dd.defaults.isSome || dd.profiles.isSome

/-- The in-memory configuration object (`class LdapConfig`).  `version`
and `profiles` are optional because `__init__` reads them with
`d.get(...)` without a default. -/
structure LdapConfig where
  version : Option Str
  defaults : PDict
  profiles : Option ProfDict
  current_profile_name : Str
deriving DecidableEq, Repr

/-- `LATEST_CONFIG_VERSION = '1.0'`. -/
def LATEST_CONFIG_VERSION : Str := lit "1.0"

/-- `LdapConfig.__init__(self, d, c_profile)`. -/
def ldapConfigOfDict (d : Option ConfigDoc) (c_profile : Str) : LdapConfig :=
  if docTruthy d then
    let dd := d.getD ⟨none, none, none⟩
    { version := dd.version
      defaults := dd.defaults.getD []
      profiles := dd.profiles
      current_profile_name := c_profile }
  else
    { version := some LATEST_CONFIG_VERSION
      defaults := []
      profiles := some []
      current_profile_name := c_profile }

/-- `LdapConfig.to_dict`: note the hard-coded `version=".1"`. -/
def LdapConfig.to_dict (c : LdapConfig) : ConfigDoc :=
  { version := some (lit ".1")
    defaults := some c.defaults
    profiles := c.profiles }

/-- `write` then `load` at the same path: the YAML dump/parse pair is an
external collaborator assumed faithful, so the loaded document is
exactly `to_dict` of the written configuration (and it is a non-empty
mapping, hence truthy). -/
def writeThenLoad (c : LdapConfig) (c_profile : Str) : LdapConfig :=
  ldapConfigOfDict (some c.to_dict) c_profile

/-- `PROFILE_FIELDS`: setting key paired with its required flag. -/
def PROFILE_FIELDS : List (Str × Bool) :=
  [ (lit "host_url", true)
  , (lit "bind_dn", true)
  , (lit "user_search_dn", true)
  , (lit "user_add_template", false)
  , (lit "group_search_dn", true)
  , (lit "group_add_template", false) ]

/-- The `current_profile` property:
`self.profiles.get(self.current_profile_name, {})`.  When `profiles` is
`None` (a document without a `profiles` key) the attribute access on
`None` raises `AttributeError`. -/
def LdapConfig.current_profile (c : LdapConfig) : Except CliErr PDict :=
  match c.profiles with
  | none => .error .attributeError
  | some ps => .ok ((alookup ps c.current_profile_name).getD [])

/-- Python call of a non-callable dict value: `update_profile` writes
`self.current_profile()`, but `current_profile` is a property whose
value is a dict, so the call raises
`TypeError: 'dict' object is not callable`. -/
def pyCallDict (_d : PDict) : Except CliErr PDict := .error .typeError

/-- Merge step of `update_profile`: assign each non-`None` new value. -/
def mergeValues (cur : PDict) (new_values : List (Str × Option Str)) : PDict :=
  new_values.foldl
    (fun acc p =>
      match p.2 with
      | some v => ainsert acc p.1 v
      | none => acc) cur

/-- Validation loop of `update_profile`: the first required field that
is absent or empty raises `InvalidEntry`.  (The source interpolates the
whole `(name, required)` tuple into the message; the model keeps the
field name.) -/
def validateRequired (cur : PDict) : List (Str × Bool) → Except CliErr Unit
  | [] => .ok ()
  | (k, req) :: rest =>
      if req then
        match alookup cur k with
        | none => .error (.invalidEntry (k ++ lit " not found in new profile"))
        | some v =>
            if v.isEmpty then
              .error (.invalidEntry (k ++ lit " not found in new profile"))
            else validateRequired cur rest
      else validateRequired cur rest

/-- `LdapConfig.update_profile(self, new_values)`.  The first statement
`current_values = self.current_profile().copy()` evaluates the
`current_profile` property (a dict) and then calls it, raising
`TypeError` before any merging, validation or assignment happens. -/
def LdapConfig.update_profile (c : LdapConfig)
    (new_values : List (Str × Option Str)) : Except CliErr LdapConfig := do
  let prop ← c.current_profile
  let current ← pyCallDict prop
  let merged := mergeValues current new_values
  let _ ← validateRequired merged PROFILE_FIELDS
  match c.profiles with
  | none => .error .typeError
  | some ps =>
      .ok { c with profiles := some (ainsert ps c.current_profile_name merged) }

/-! ## Name/DN normalisation (`__normalize_names`) -/

/-- Index of the first comma (`str.index(',')`); `none` models the
`ValueError` Python raises when no comma is present. -/
def commaIdx : Str → Option Nat
  | [] => none
  | c :: cs => if c == ',' then some 0 else (commaIdx cs).map (· + 1)

/-- Python slice `s[a:b]` for non-negative bounds. -/
def pySlice (s : Str) (a b : Nat) : Str := (s.take b).drop a

/-- `__normalize_names(nm, base, id_field)`: a name already carrying the
`<id_field>=` prefix is treated as a DN and the short name is the slice
between the `=` and the first comma of the whole string; otherwise the
DN is synthesised as `<id_field>=<nm>,<base>`. -/
def normalizeNames (nm base id_field : Str) : Except CliErr (Str × Str) :=
  if (id_field ++ lit "=").isPrefixOf nm then
    match commaIdx nm with
    | none => .error .valueError
    | some i => .ok (pySlice nm (id_field.length + 1) i, nm)
  else
    .ok (nm, id_field ++ lit "=" ++ nm ++ lit "," ++ base)

/-- `USER_ID_FIELD = 'uid'`. -/
def USER_ID_FIELD : Str := lit "uid"

/-- `GROUP_ID_FIELD = 'cn'`. -/
def GROUP_ID_FIELD : Str := lit "cn"

/-- `_normalize_user_names`. -/
def normalize_user_names (nm base : Str) : Except CliErr (Str × Str) :=
  normalizeNames nm base USER_ID_FIELD

/-- `_normalize_group_names`. -/
def normalize_group_names (nm base : Str) : Except CliErr (Str × Str) :=
  normalizeNames nm base GROUP_ID_FIELD

/-! ## Entity commands

Each command is a function of the directory state and the resolved
profile settings; it returns the list of mutating directory calls it
issued, in order, together with `none` on normal completion or the
raised error.  Pure pre-checks that raise before any mutation therefore
return an empty operation list. -/

/-- The resolved connection settings a command reads from the
configuration (`conf.user_search_base` / `conf.group_search_base`
properties, profile value with fallback to defaults). -/
structure Conf where
  user_search_base : Str
  group_search_base : Str
deriving DecidableEq, Repr

/-- `_retrieve_value(v)` for a non-`None` `v` (all call sites guard with
a truthiness test first): a value starting with `@` names a file whose
full contents are the result; `fs` is the file-system oracle. -/
def retrieve_value (fs : Str → Str) (v : Str) : Str :=
  if (lit "@").isPrefixOf v then fs (v.drop 1) else v

/-- `_add_user_to_groups(config, connect, user_dn, user_id, groups)`:
one modify call per group, adding `uniqueMember` (the user's DN) and
`memberUid` (the user's short name), with no duplicate check.  A
`ValueError` from group-name normalisation aborts the loop before that
group's modify; the modifies already issued stand.  (The source also
accepts a single string for `groups` and wraps it in a list; callers of
the model pass the list.) -/
def add_user_to_groups (conf : Conf) (user_dn user_id : Str) :
    List Str → List Op × Option CliErr
  | [] => ([], none)
  | g :: gs =>
      match normalize_group_names g conf.group_search_base with
      | .error e => ([], some e)
      | .ok (_g_name, g_dn) =>
          let op := Op.modify g_dn
            [ (lit "uniqueMember", [(ModType.addM, [LVal.str user_dn])])
            , (lit "memberUid", [(ModType.addM, [LVal.str user_id])]) ]
          let (ops, err) := add_user_to_groups conf user_dn user_id gs
          (op :: ops, err)

/-- `_remove_user_from_groups`: one modify per group deleting the user's
`uniqueMember` value. -/
def remove_user_from_groups (conf : Conf) (user_dn : Str) :
    List Str → List Op × Option CliErr
  | [] => ([], none)
  | g :: gs =>
      match normalize_group_names g conf.group_search_base with
      | .error e => ([], some e)
      | .ok (_g_name, g_dn) =>
          let op := Op.modify g_dn
            [(lit "uniqueMember", [(ModType.deleteM, [LVal.str user_dn])])]
          let (ops, err) := remove_user_from_groups conf user_dn gs
          (op :: ops, err)

/-- `_verify_entity_exists`: normalises the name and issues a search
whose result is discarded (only a protocol error would raise, and the
modelled server does not fail at the protocol level).  Note that a
missing entity does not raise here. -/
def verify_entity_exists (srv : List Entry) (entity base id_field : Str) :
    Except CliErr (Str × Str) :=
  match normalizeNames entity base id_field with
  | .error e => .error e
  | .ok (uid, dn) =>
      let _es := searchEntries srv base (.eq id_field uid) []
      .ok (uid, dn)

/-- `_create_group(ctx, group_name, group_id, description)`: builds the
entry and issues the add.  The source does not check the result of
`connect.add` here. -/
def create_group (conf : Conf) (group_name : Str) (group_id : LVal)
    (description : Option Str) : Except CliErr (List Op × Str × Str) :=
  match normalize_group_names group_name conf.group_search_base with
  | .error e => .error e
  | .ok (g_name, g_dn) =>
      let args0 := [(lit "cn", LVal.str g_name)]
      let cls := [lit "top", lit "groupOfUniqueNames", lit "posixGroup"]
      let args1 := args0 ++ [(lit "gidNumber", group_id)]
      let args2 :=
        if truthyS description then
          args1 ++ [(lit "description", LVal.str (description.getD []))]
        else args1
      .ok ([Op.add g_dn cls args2], g_name, g_dn)

/-- One step of the free-id scan of `user_create`
(lines 337-344): fold the running `(max_uid, max_gid)` over one
returned entry.  `uidNumber` was not among the requested attributes, so
the dict lookup falls back to the default `[0]`; `gidNumber` was
requested, so it is present but possibly `[]`. -/
def scanPair (acc : Int × Int) (e : Entry) : Except CliErr (Int × Int) := do
  let uvals := (getAttr e (lit "uidNumber")).getD [LVal.int 0]
  let u0 ← pyIndex0 uvals
  let max_uid ← pyMax acc.1 u0
  let tgidList := (getAttr e (lit "gidNumber")).getD [LVal.int 0]
  let tgid ← if tgidList.isEmpty then pure (LVal.int 0) else pyIndex0 tgidList
  let max_gid ← pyMax acc.2 tgid
  .ok (max_uid, max_gid)

/-- The free-id computation of `user_create` when no `--uid` is given:
`next_id = max(max_uid, max_gid) + 1` with both maxima floored at
100. -/
def computeNextId (es : List Entry) : Except CliErr Int := do
  let (max_uid, max_gid) ← es.foldlM scanPair (100, 100)
  .ok (max max_uid max_gid + 1)

/-- The fixed object-class list of a created user entry. -/
def userClasses : List Str :=
  [ lit "top", lit "account", lit "posixaccount", lit "inetOrgPerson"
  , lit "person", lit "inetUser", lit "organizationalPerson"
  , lit "ldapPublicKey" ]

/-- `user create` (`user_create`, lines 320-398).  Option values are
`none` when the option was omitted.  The returned operations are the
adds/modifies issued, in order.

`ldap3`'s `connect.search` returns `False` both on a protocol error and
when a successful search simply finds no entries (the source's own
comment at line 330, "Check if real error or just no records", relies
on this).  On the healthy server of this model a search therefore
"returns `True`" exactly when its result list is non-empty:

* the free-id scan (lines 329-332) guards the `False` case with
  `connect.last_error`, which is unset here, so an empty person list
  just yields an empty scan;
* the explicit-uid duplicate check (lines 350-355) has no such guard:
  when the search finds no entry it raises
  `Failed to query for uid: {connect.result}` (the model keeps the
  message prefix and drops the `connect.result` detail), and when it
  finds one, `connect.entries` is non-empty and it raises the
  duplicate-entry error — so a truthy `--uid` always stops the command
  here;
* the explicit-gid check (lines 359-364) behaves the same way.

Consequently the creation path below is reached only with falsy `uid`
and `gid`, where line 357/366 set both to `next_id`; and line 371
rebinds `username` to the normalized short name before line 374 passes
it to `_create_group`. -/
def user_create (srv : List Entry) (conf : Conf) (fs : Str → Str)
    (username commonname : Str) (public_key uid gid home : Option Str)
    (surname email : Str) (group : List Str) : List Op × Option CliErr :=
  let nid : Except CliErr Int :=
    match uid with
    | none =>
        computeNextId (searchEntries srv conf.user_search_base
          (.eq (lit "objectclass") (lit "person")) [lit "uid", lit "gidNumber"])
    | some _ => .ok 1
  match nid with
  | .error e => ([], some e)
  | .ok next_id =>
    if truthyS uid then
      (if (searchEntries srv conf.user_search_base
            (.eq (lit "uid") (uid.getD [])) []).isEmpty then
        ([], some (.clickException (lit "Failed to query for uid: ")))
      else
        ([], some (.clickException
          (lit "Entry with uid " ++ uid.getD [] ++ lit " already exists"))))
    else if truthyS gid then
      (if (searchEntries srv conf.user_search_base
            (.eq (lit "gidNumber") (gid.getD [])) []).isEmpty then
        ([], some (.clickException (lit "Failed to query for gid: ")))
      else
        ([], some (.clickException
          (lit "Entry with gid " ++ gid.getD [] ++ lit " already exists"))))
    else
      let homeV := if truthyS home then home.getD [] else lit "/home/" ++ username
      match normalize_user_names username conf.user_search_base with
      | .error e => ([], some e)
      | .ok (uname, user_dn) =>
        -- both `uid` and `gid` are falsy on this path, so `gid = next_id`
        -- (an int), and `username` now holds the normalized short name
        match create_group conf uname (LVal.int next_id) none with
        | .error e => ([], some e)
        | .ok (gops, group_name, _g_dn) =>
          let (mops1, merr1) := add_user_to_groups conf user_dn uname [group_name]
          match merr1 with
          | some e => (gops ++ mops1, some e)
          | none =>
            let args0 :=
              [ (lit "uid", LVal.str uname)
              , (lit "uidNumber", LVal.int next_id)
              , (lit "homeDirectory", LVal.str homeV)
              , (lit "gidNumber", LVal.int next_id)
              , (lit "sn", LVal.str surname)
              , (lit "mail", LVal.str email)
              , (lit "cn", LVal.str commonname) ]
            let args :=
              if truthyS public_key then
                args0 ++ [(lit "sshPublicKey",
                  LVal.str (retrieve_value fs (public_key.getD [])))]
              else args0
            let addOp := Op.add user_dn userClasses args
            let (mops2, merr2) := add_user_to_groups conf user_dn uname group
            (gops ++ mops1 ++ [addOp] ++ mops2, merr2)

/-- `group create` (`group_create`, lines 603-604): the command passes
`description` as the positional `group_id` argument of `_create_group`
and never passes a description. -/
def group_create (conf : Conf) (group_name description : Str) :
    List Op × Option CliErr :=
  match create_group conf group_name (LVal.str description) none with
  | .error e => ([], some e)
  | .ok (ops, _, _) => (ops, none)

/-- `group remove` (`group_remove`): unconditional delete by DN. -/
def group_remove (conf : Conf) (group : Str) : List Op × Option CliErr :=
  match normalize_group_names group conf.group_search_base with
  | .error e => ([], some e)
  | .ok (_g_name, g_dn) => ([Op.delete g_dn], none)

/-- `user group add` (`user_group_add`, lines 485-491): after the user
existence check, the source calls
`_add_user_to_groups(config, connect, u_dn, group)`, supplying only four
of the helper's five required positional parameters, so Python raises
`TypeError` before the helper body runs; no modify is issued. -/
def user_group_add (srv : List Entry) (conf : Conf) (username : Str)
    (_group : List Str) : List Op × Option CliErr :=
  match verify_entity_exists srv username conf.user_search_base USER_ID_FIELD with
  | .error e => ([], some e)
  | .ok (_u, _u_dn) => ([], some .typeError)

/-- Membership loop of `group_user_add`: collect a `MODIFY_ADD` for each
user whose short name is not among the group's current `uniqueId`
values.  (The source appends the bare short name where `ldap3` expects a
value list; the model wraps it.) -/
def newMembersLoop (conf : Conf) (current_members : List LVal) :
    List Str → Except CliErr (List (ModType × List LVal))
  | [] => .ok []
  | u :: us =>
      match normalize_user_names u conf.user_search_base with
      | .error e => .error e
      | .ok (uid, _u_dn) =>
          match newMembersLoop conf current_members us with
          | .error e => .error e
          | .ok rest =>
              if current_members.contains (LVal.str uid) then .ok rest
              else .ok ((ModType.addM, [LVal.str uid]) :: rest)

/-- `group user add` (`group_user_add`, lines 660-683): verifies the
group, re-searches it requesting the `uniqueId` attribute, filters the
requested users against the current `uniqueId` values, and issues a
single modify on the `uniqueUid` attribute when any member is new.
When the group does not exist the re-search finds no entries, `ldap3`'s
`connect.search` returns `False`, and lines 668-669 raise
`Failed to query group {dn}: {connect.result}` before `entries[0]` is
reached (the model keeps the message up to the omitted
`connect.result`). -/
def group_user_add (srv : List Entry) (conf : Conf) (group : Str)
    (user : List Str) : List Op × Option CliErr :=
  match verify_entity_exists srv group conf.group_search_base GROUP_ID_FIELD with
  | .error e => ([], some e)
  | .ok (gid, dn) =>
    let es := searchEntries srv conf.group_search_base
      (.eq GROUP_ID_FIELD gid) [lit "uniqueId"]
    match es with
    | [] => ([], some (.clickException
        (lit "Failed to query group " ++ dn ++ lit ": ")))
    | e0 :: _ =>
      let current_members := getValues e0 (lit "uniqueId")
      match newMembersLoop conf current_members user with
      | .error e => ([], some e)
      | .ok new_members =>
        if new_members.isEmpty then ([], none)
        else ([Op.modify dn [(lit "uniqueUid", new_members)]], none)

/-! ## `fix_groups` and the directory-update semantics -/

/-- Python `str` coercion needed before calling string methods on a
`uniqueMember` value; a non-string value would raise on
`.startswith`. -/
def asStr (v : LVal) : Except CliErr Str :=
  match v with
  | .str s => .ok s
  | .int _ => .error .typeError

/-- The `uniqueMember` loop of `fix_groups`: for every member other than
the directory manager, the short name derived by user-name
normalisation is collected when it is missing from the entry's current
`memberUid` values. -/
def memberAdds (conf : Conf) : List LVal → List LVal → Except CliErr (List Str)
  | [], _mem => .ok []
  | v :: vs, mem =>
      if v == LVal.str (lit "cn=Directory Manager") then
        memberAdds conf vs mem
      else
        match asStr v with
        | .error e => .error e
        | .ok g =>
            match normalize_user_names g conf.user_search_base with
            | .error e => .error e
            | .ok (uid, _udn) =>
                match memberAdds conf vs mem with
                | .error e => .error e
                | .ok rest =>
                    if mem.contains (LVal.str uid) then .ok rest
                    else .ok (uid :: rest)

/-- Per-entry modification set of `fix_groups` (lines 543-556), together
with the updated gid counter: add the `posixGroup` object class when
missing (and, nested under that check, a fresh `gidNumber` when the
entry has none), then a `memberUid` add for every missing member short
name. -/
def entryStep (conf : Conf) (e : Entry) (next_gid : Int) :
    Except CliErr (Mods × Int) :=
  let clsMissing := !(getValues e (lit "objectClass")).contains
    (LVal.str (lit "posixGroup"))
  let clsMods : Mods :=
    if clsMissing then [(lit "objectClass", [(ModType.addM, [LVal.str (lit "posixGroup")])])]
    else []
  let gidEmpty := (getValues e (lit "gidNumber")).isEmpty
  let gidMods : Mods :=
    if clsMissing && gidEmpty then
      [(lit "gidNumber", [(ModType.addM, [LVal.int next_gid])])]
    else []
  let next_gid' := if clsMissing && gidEmpty then next_gid + 1 else next_gid
  match memberAdds conf (getValues e (lit "uniqueMember"))
      (getValues e (lit "memberUid")) with
  | .error e => .error e
  | .ok adds =>
      let memMods : Mods :=
        if adds.isEmpty then []
        else [(lit "memberUid", adds.map (fun u => (ModType.addM, [LVal.str u])))]
      .ok (clsMods ++ gidMods ++ memMods, next_gid')

/-- The entry loop of `fix_groups`: issue a modify for every entry whose
modification set is non-empty.  An error while computing an entry's set
aborts before that entry's modify; earlier modifies stand. -/
def fixLoop (conf : Conf) : List Entry → Int → List Op × Option CliErr
  | [], _ => ([], none)
  | e :: rest, next_gid =>
      match entryStep conf e next_gid with
      | .error err => ([], some err)
      | .ok (mods, next_gid') =>
          let (ops, err) := fixLoop conf rest next_gid'
          if mods.isEmpty then (ops, err)
          else (Op.modify e.dn mods :: ops, err)

/-- The attribute list `fix_groups` requests. -/
def fixAttrs : List Str :=
  [lit "uniqueMember", lit "memberUid", lit "objectClass", lit "gidNumber"]

/-- `group fix_groups` (lines 532-560): scan every `groupOfUniqueNames`
entry under the group search base and repair it, with the gid counter
starting at 20000. -/
def fix_groups (srv : List Entry) (conf : Conf) : List Op × Option CliErr :=
  fixLoop conf
    (searchEntries srv conf.group_search_base
      (.eq (lit "objectclass") (lit "groupOfUniqueNames")) fixAttrs)
    20000

/-- Server-side effect of one modification list on one attribute's
values, applied in order. -/
def applyModEntries (vals : List LVal) (mes : List (ModType × List LVal)) :
    List LVal :=
  mes.foldl
    (fun acc me =>
      match me.1 with
      | .addM => acc ++ me.2
      | .replaceM => me.2
      | .deleteM => acc.filter (fun v => !me.2.contains v)) vals

/-- Apply one attribute's modifications to an attribute table: the first
binding with a matching (case-insensitive) name is updated in place; a
missing attribute is created at the end. -/
def applyAttrMod : List (Str × List LVal) → Str → List (ModType × List LVal) →
    List (Str × List LVal)
  | [], name, mes => [(name, applyModEntries [] mes)]
  | (k, vs) :: rest, name, mes =>
      if lowerEq k name then (k, applyModEntries vs mes) :: rest
      else (k, vs) :: applyAttrMod rest name mes

/-- Apply a whole modify body to one entry. -/
def applyMods (e : Entry) (mods : Mods) : Entry :=
  mods.foldl (fun acc p => ⟨acc.dn, applyAttrMod acc.attrs p.1 p.2⟩) e

/-- Server-side effect of one recorded operation on one entry: a modify
whose DN matches is applied; adds and deletes (not produced by
`fix_groups`) leave the entry unchanged. -/
def applyOpE (e : Entry) (op : Op) : Entry :=
  match op with
  | .modify dn mods => if dn == e.dn then applyMods e mods else e
  | _ => e

/-- Directory state after a batch of modify operations. -/
def applyOps (srv : List Entry) (ops : List Op) : List Entry :=
  srv.map (fun e => ops.foldl applyOpE e)

/-! ## Concrete instances used by the claim theorems -/

/-- A user search base for concrete runs. -/
def ubE : Str := lit "ou=people,dc=example,dc=com"

/-- A group search base for concrete runs. -/
def gbE : Str := lit "ou=groups,dc=example,dc=com"

/-- Resolved settings for concrete runs. -/
def confE : Conf := ⟨ubE, gbE⟩

/-- A trivial file-system oracle (no command under test reads a file). -/
def fs0 : Str → Str := fun _ => []

/-- A person entry under `ubE` carrying a `uidNumber` value. -/
def personEntry (n : String) (u : Int) : Entry :=
  ⟨lit ("uid=" ++ n ++ ",ou=people,dc=example,dc=com"),
   [ (lit "objectclass", [LVal.str (lit "person")])
   , (lit "uid", [LVal.str (lit n)])
   , (lit "uidNumber", [LVal.int u]) ]⟩

/-- Directory for the free-id scan: person entries whose `uidNumber`
values are 100, 105 and 110. -/
def srvScan : List Entry :=
  [personEntry "u1" 100, personEntry "u2" 105, personEntry "u3" 110]

/-- Directory holding one `groupOfUniqueNames` entry `cn=dev` with no
members. -/
def srvDev : List Entry :=
  [⟨lit "cn=dev,ou=groups,dc=example,dc=com",
    [ (lit "objectClass", [LVal.str (lit "top"), LVal.str (lit "groupOfUniqueNames")])
    , (lit "cn", [LVal.str (lit "dev")]) ]⟩]

/-- A configuration with version `1.0` and one (empty) profile. -/
def confStored : LdapConfig :=
  ⟨some (lit "1.0"), [], some [(lit "default", [])], lit "default"⟩

/-- A fully-valid profile update: every required field set. -/
def validUpdate : List (Str × Option Str) :=
  [ (lit "host_url", some (lit "ldap://ldap.example.com"))
  , (lit "bind_dn", some (lit "cn=admin,dc=example,dc=com"))
  , (lit "user_search_dn", some (lit "ou=people,dc=example,dc=com"))
  , (lit "group_search_dn", some (lit "ou=groups,dc=example,dc=com")) ]

/-- Directory for the `fix_groups` run: one group lacking `posixGroup`
and `gidNumber`, with one real member plus the directory manager. -/
def srvFix : List Entry :=
  [⟨lit "cn=dev,ou=groups,dc=example,dc=com",
    [ (lit "objectClass", [LVal.str (lit "top"), LVal.str (lit "groupOfUniqueNames")])
    , (lit "cn", [LVal.str (lit "dev")])
    , (lit "uniqueMember",
        [ LVal.str (lit "uid=alice,ou=people,dc=example,dc=com")
        , LVal.str (lit "cn=Directory Manager") ]) ]⟩]

/-- The operations the first `fix_groups` run issues on `srvFix`. -/
def opsFix : List Op :=
  [Op.modify (lit "cn=dev,ou=groups,dc=example,dc=com")
    [ (lit "objectClass", [(ModType.addM, [LVal.str (lit "posixGroup")])])
    , (lit "gidNumber", [(ModType.addM, [LVal.int 20000])])
    , (lit "memberUid", [(ModType.addM, [LVal.str (lit "alice")])]) ]]

/-- Keys a `fix_groups` modification set may touch, and the only value
it ever adds under `objectClass`.  Every operation `fix_groups` issues
satisfies this. -/
def ModsOK (m : Mods) : Prop :=
  ∀ p ∈ m,
    (p.1 = lit "objectClass" ∨ p.1 = lit "gidNumber" ∨ p.1 = lit "memberUid") ∧
    (p.1 = lit "objectClass" → p.2 = [(ModType.addM, [LVal.str (lit "posixGroup")])])

/-- Lift of `ModsOK` to an operation. -/
def OpOK (op : Op) : Prop :=
  ∀ dn m, op = Op.modify dn m → ModsOK m

/-! ## Helper lemmas -/

theorem isPrefixOf_append_self (l r : Str) : l.isPrefixOf (l ++ r) = true := by
  induction l with
  | nil => simp [List.isPrefixOf]
  | cons c cs ih =>
      rw [List.cons_append]
      simp [List.isPrefixOf, ih]

theorem commaIdx_append (l r : Str) (h : ',' ∉ l) :
    commaIdx (l ++ r) = (commaIdx r).map (fun i => i + l.length) := by
  induction l with
  | nil =>
      simp only [List.nil_append, List.length_nil]
      cases commaIdx r <;> simp
  | cons c cs ih =>
      have hc : (c == ',') = false := by
        rw [beq_eq_false_iff_ne]
        intro heq
        exact h (by rw [heq]; exact List.mem_cons_self ',' cs)
      have hcs : ',' ∉ cs := fun hm => h (List.mem_cons_of_mem _ hm)
      rw [List.cons_append]
      simp only [commaIdx, hc, Bool.false_eq_true, if_false, ih hcs,
        List.length_cons]
      cases commaIdx r with
      | none => rfl
      | some i => simp [Nat.add_assoc]

theorem commaIdx_cons_comma (b : Str) : commaIdx (',' :: b) = some 0 := by
  simp [commaIdx]

theorem alookup_cons {α : Type} (k' : Str) (v : α) (rest : List (Str × α))
    (k : Str) :
    alookup ((k', v) :: rest) k
      = if (k' == k) = true then some v else alookup rest k := by
  by_cases h : (k' == k) = true
  · have h' : ((fun (p : Str × α) => p.1 == k) (k', v)) = true := h
    simp only [alookup]
    rw [@List.find?_cons_of_pos (Str × α) (fun p => p.1 == k) (k', v) rest h']
    simp [h]
  · have h' : ¬ ((fun (p : Str × α) => p.1 == k) (k', v)) = true := h
    simp only [alookup]
    rw [@List.find?_cons_of_neg (Str × α) (fun p => p.1 == k) (k', v) rest h']
    simp [h, alookup]

/-! ## Claim theorems -/

/-- C1.  Against person entries whose `uidNumber` values are 100, 105
and 110 and with no explicit uid, `user_create` computes `next_id = 101`
— not 111 as the claim states — because the scan's search requests the
attributes `uid` and `gidNumber` while the loop reads `uidNumber`, so
the `uidNumber` values are never among the returned attributes and each
defaults to 0.  The created entry carries `uidNumber`/`gidNumber` 101. -/
theorem C1_next_id_scan_misses_uidNumber :
    computeNextId (searchEntries srvScan ubE
        (.eq (lit "objectclass") (lit "person")) [lit "uid", lit "gidNumber"])
      = .ok 101 ∧
    user_create srvScan confE fs0 (lit "bob") (lit "Bob") none none none none
        (lit "B") (lit "b@example.com") []
      = ([ Op.add (lit "cn=bob,ou=groups,dc=example,dc=com")
             [lit "top", lit "groupOfUniqueNames", lit "posixGroup"]
             [(lit "cn", LVal.str (lit "bob")), (lit "gidNumber", LVal.int 101)]
         , Op.modify (lit "cn=bob,ou=groups,dc=example,dc=com")
             [ (lit "uniqueMember",
                 [(ModType.addM, [LVal.str (lit "uid=bob,ou=people,dc=example,dc=com")])])
             , (lit "memberUid", [(ModType.addM, [LVal.str (lit "bob")])]) ]
         , Op.add (lit "uid=bob,ou=people,dc=example,dc=com") userClasses
             [ (lit "uid", LVal.str (lit "bob"))
             , (lit "uidNumber", LVal.int 101)
             , (lit "homeDirectory", LVal.str (lit "/home/bob"))
             , (lit "gidNumber", LVal.int 101)
             , (lit "sn", LVal.str (lit "B"))
             , (lit "mail", LVal.str (lit "b@example.com"))
             , (lit "cn", LVal.str (lit "Bob")) ]
         ], none) := by
  constructor
  · decide
  · decide

/-- C5.  `update_profile` raises `TypeError` even for a fully-valid
update (every required field supplied): its first statement calls the
`current_profile` property's dict value.  No validation runs and the
stored profiles are untouched — in particular no `InvalidEntry`
(`InvalidProfileError`) is ever raised. -/
theorem C5_update_profile_type_error :
    LdapConfig.update_profile confStored validUpdate = .error .typeError := by
  decide

/-- C8.  `group create -g dev -d Developers` adds the entry with the
synthesised DN, the three object classes and `cn`, but its `gidNumber`
attribute is the description text `Developers` (the command passes the
description as `_create_group`'s `group_id` positional argument) and no
`description` attribute is ever set. -/
theorem C8_group_create_gid_is_description :
    group_create confE (lit "dev") (lit "Developers")
      = ([ Op.add (lit "cn=dev,ou=groups,dc=example,dc=com")
             [lit "top", lit "groupOfUniqueNames", lit "posixGroup"]
             [ (lit "cn", LVal.str (lit "dev"))
             , (lit "gidNumber", LVal.str (lit "Developers")) ] ], none) := by
  decide

/-- C4 counterexample.  A configuration whose version tag is `1.0` does
not survive a write/load round trip: `to_dict` hard-codes the written
version as `.1`, so the reloaded version differs. -/
theorem C4_version_not_preserved :
    (writeThenLoad confStored (lit "default")).version ≠ confStored.version := by
  decide

/-- C4 (amended).  A write/load round trip preserves the defaults
mapping and the profiles mapping, but the version tag of the reloaded
document is always `.1` regardless of the written configuration's
version. -/
theorem C4_write_load_preserves (c : LdapConfig) (p : Str) :
    (writeThenLoad c p).defaults = c.defaults ∧
    (writeThenLoad c p).profiles = c.profiles ∧
    (writeThenLoad c p).version = some (lit ".1") := by
  simp [writeThenLoad, ldapConfigOfDict, docTruthy, LdapConfig.to_dict]

/-- C6 counterexample.  Normalisation does not round-trip for a short
name containing a comma: `normalize("a,b", "dc=x", "uid")` yields the
DN `uid=a,b,dc=x`, but normalising that DN extracts the short name `a`
(the slice up to the first comma), not `a,b`. -/
theorem C6_roundtrip_comma_counterexample :
    normalizeNames (lit "a,b") (lit "dc=x") (lit "uid")
      = .ok (lit "a,b", lit "uid=a,b,dc=x") ∧
    normalizeNames (lit "uid=a,b,dc=x") (lit "dc=x") (lit "uid")
      = .ok (lit "a", lit "uid=a,b,dc=x") ∧
    lit "a" ≠ lit "a,b" := by
  refine ⟨by decide, by decide, by decide⟩

/-- C6 (amended).  For every short name `n` that does not begin with
`<attr>=` and contains no comma, and every identifying attribute `attr`
containing no comma (the source uses `uid` and `cn`), normalisation
returns `(n, "<attr>=<n>,<b>")`, and normalising that DN again returns
the same pair.  The comma-freedom condition on `n` is necessary, as the
counterexample shows. -/
theorem C6_normalize_roundtrip (n b attr : Str)
    (h1 : (attr ++ lit "=").isPrefixOf n = false)
    (h2 : ',' ∉ attr) (h3 : ',' ∉ n) :
    normalizeNames n b attr = .ok (n, attr ++ lit "=" ++ n ++ lit "," ++ b) ∧
    normalizeNames (attr ++ lit "=" ++ n ++ lit "," ++ b) b attr
      = .ok (n, attr ++ lit "=" ++ n ++ lit "," ++ b) := by
  constructor
  · simp [normalizeNames, h1]
  · have hassoc : attr ++ lit "=" ++ n ++ lit "," ++ b
        = (attr ++ lit "=") ++ (n ++ ',' :: b) := by
      simp [lit, List.append_assoc]
    have hattrComma : ',' ∉ attr ++ lit "=" := by
      intro hm
      rcases List.mem_append.mp hm with h' | h'
      · exact h2 h'
      · simp [lit] at h'
    have hpre := isPrefixOf_append_self (attr ++ lit "=") (n ++ ',' :: b)
    have hidx : commaIdx ((attr ++ lit "=") ++ (n ++ ',' :: b))
        = some (n.length + (attr ++ lit "=").length) := by
      rw [commaIdx_append _ _ hattrComma, commaIdx_append _ _ h3,
        commaIdx_cons_comma]
      simp
    have hlen : (attr ++ lit "=").length = attr.length + 1 := by simp [lit]
    have htake : ((attr ++ lit "=") ++ (n ++ ',' :: b)).take
        (n.length + (attr ++ lit "=").length) = (attr ++ lit "=") ++ n := by
      rw [Nat.add_comm, List.take_append]
      congr 1
      exact List.take_left n (',' :: b)
    have hdrop : ((attr ++ lit "=") ++ n).drop (attr.length + 1) = n :=
      List.drop_left' hlen
    rw [hassoc]
    simp only [normalizeNames, hpre, if_true, hidx, pySlice, htake, hdrop]

/-- C6 witness: the round-trip theorem applied to the short name
`alice`, the user search base and the `uid` attribute. -/
theorem C6_normalize_roundtrip_witness :
    normalizeNames (lit "alice") ubE (lit "uid")
      = .ok (lit "alice", lit "uid" ++ lit "=" ++ lit "alice" ++ lit "," ++ ubE) ∧
    normalizeNames (lit "uid" ++ lit "=" ++ lit "alice" ++ lit "," ++ ubE) ubE (lit "uid")
      = .ok (lit "alice", lit "uid" ++ lit "=" ++ lit "alice" ++ lit "," ++ ubE) :=
  C6_normalize_roundtrip (lit "alice") ubE (lit "uid")
    (by decide) (by decide) (by decide)

/-- C7.  For every directory, configuration and option set, when an
explicit non-empty `--uid` is supplied and the duplicate search finds a
matching entry under the user search base, `user_create` raises the
duplicate-entry error and issues no directory operation at all (no add,
no modify). -/
theorem C7_duplicate_uid_no_mutation (srv : List Entry) (conf : Conf)
    (fs : Str → Str) (username commonname : Str)
    (public_key gid home : Option Str) (surname email : Str)
    (group : List Str) (u : Str) (hu : u ≠ [])
    (hdup : searchEntries srv conf.user_search_base (.eq (lit "uid") u) [] ≠ []) :
    user_create srv conf fs username commonname public_key (some u) gid home
        surname email group
      = ([], some (.clickException
          (lit "Entry with uid " ++ u ++ lit " already exists"))) := by
  have h1 : truthyS (some u) = true := by
    rcases List.exists_cons_of_ne_nil hu with ⟨c, cs, rfl⟩
    rfl
  have h2 : (searchEntries srv conf.user_search_base
      (.eq (lit "uid") u) []).isEmpty = false := by
    rcases List.exists_cons_of_ne_nil hdup with ⟨e, es, h⟩
    rw [h]
    rfl
  simp only [user_create, h1, h2, Bool.false_eq_true, if_false, if_true,
    Option.getD_some]

/-- C7 witness: against the scan directory (which holds `uid=u1`),
creating a user with explicit `--uid u1` is rejected with the
duplicate-entry message and an empty operation list. -/
theorem C7_duplicate_uid_no_mutation_witness :
    user_create srvScan confE fs0 (lit "u1") (lit "U") none (some (lit "u1"))
        none none (lit "S") (lit "s@example.com") []
      = ([], some (.clickException
          (lit "Entry with uid " ++ lit "u1" ++ lit " already exists"))) :=
  C7_duplicate_uid_no_mutation srvScan confE fs0 (lit "u1") (lit "U") none
    none none (lit "S") (lit "s@example.com") [] (lit "u1")
    (by decide) (by decide)

/-- C2 counterexample.  With the group `cn=dev` present, the group-side
entry point `group user add -g dev -u alice` issues a single modify on
the attribute `uniqueUid` carrying only the short name — it never
touches `uniqueMember` or `memberUid` — and the user-side entry point
`user group add -u alice -g dev` raises `TypeError` (its call to
`_add_user_to_groups` omits the required `groups` argument) and issues
no modify at all. -/
theorem C2_membership_add_counterexample :
    group_user_add srvDev confE (lit "dev") [lit "alice"]
      = ([Op.modify (lit "cn=dev,ou=groups,dc=example,dc=com")
            [(lit "uniqueUid", [(ModType.addM, [LVal.str (lit "alice")])])]], none) ∧
    user_group_add srvDev confE (lit "alice") [lit "dev"]
      = ([], some .typeError) ∧
    lit "uniqueUid" ≠ lit "uniqueMember" ∧
    lit "uniqueUid" ≠ lit "memberUid" := by
  refine ⟨by decide, by decide, by decide, by decide⟩

/-- C10 counterexample.  `user create -u alice --uid 2000` against an
empty directory creates nothing at all: the duplicate-check search
finds no entries, so `ldap3`'s `search` returns `False` and line 351
raises `Failed to query for uid` before any directory call — in
particular no user entry with `uidNumber`/`gidNumber` 1 (or any other
value) is ever added, contradicting the claim's description of the
created entry. -/
theorem C10_explicit_uid_query_failure :
    user_create [] confE fs0 (lit "alice") (lit "Alice") none
        (some (lit "2000")) none none (lit "A") (lit "a@example.com") []
      = ([], some (.clickException (lit "Failed to query for uid: "))) := by
  decide

/-- C10 (amended).  For every user create invocation with an explicit
non-empty `--uid`, the command fails before any directory mutation and
no user entry is ever created: when the duplicate-check search finds a
matching entry it fails with the duplicate-entry error, and otherwise
the search returns `False` on the empty result and it fails with
`Failed to query for uid` (line 351 lacks the `last_error` guard the
free-id scan uses at line 330).  The supplied uid is therefore used
only for the duplicate-entry check and never reaches a created entry. -/
theorem C10_explicit_uid_never_creates (srv : List Entry) (conf : Conf)
    (fs : Str → Str) (username commonname : Str)
    (public_key gid home : Option Str) (surname email : Str)
    (group : List Str) (u : Str) (hu : u ≠ []) :
    user_create srv conf fs username commonname public_key (some u) gid home
        surname email group
      = ([], some (.clickException
          (if (searchEntries srv conf.user_search_base
              (.eq (lit "uid") u) []).isEmpty = true
            then lit "Failed to query for uid: "
            else lit "Entry with uid " ++ u ++ lit " already exists"))) := by
  have h1 : truthyS (some u) = true := by
    rcases List.exists_cons_of_ne_nil hu with ⟨c, cs, rfl⟩
    rfl
  by_cases h2 : (searchEntries srv conf.user_search_base
      (.eq (lit "uid") u) []).isEmpty = true
  · simp [user_create, h1, h2]
  · simp only [Bool.not_eq_true] at h2
    simp [user_create, h1, h2]

/-- C10 witness: the amended theorem applied to `user create -u bob
--uid 3000` against an empty directory, where the duplicate search is
empty and the command stops with the query error. -/
theorem C10_explicit_uid_never_creates_witness :
    user_create [] confE fs0 (lit "bob") (lit "Bob") none
        (some (lit "3000")) none none (lit "B") (lit "b@example.com") []
      = ([], some (.clickException (lit "Failed to query for uid: "))) := by
  have h := C10_explicit_uid_never_creates [] confE fs0 (lit "bob") (lit "Bob")
    none none none (lit "B") (lit "b@example.com") [] (lit "3000") (by decide)
  rw [h]
  decide

/-- C2 (amended).  The two membership-mutation entry points behave
differently, and neither matches the claim in full: (a) the user-create
helper `_add_user_to_groups` issues only modifies that add
`uniqueMember` (the user's DN) and `memberUid` (the short name), with no
duplicate check; (b) when every group name normalises, it issues exactly
one such modify per requested group and completes; (c) the user-side
`user group add` raises `TypeError` after the user existence check (its
helper call omits the `groups` argument) and issues no modify; (d) every
operation the group-side `group user add` issues is a single modify on
the `uniqueUid` attribute only. -/
theorem C2_membership_add_behavior :
    (∀ (conf : Conf) (user_dn user_id : Str) (gs : List Str) (op : Op),
        op ∈ (add_user_to_groups conf user_dn user_id gs).1 →
        ∃ g_dn, op = Op.modify g_dn
          [ (lit "uniqueMember", [(ModType.addM, [LVal.str user_dn])])
          , (lit "memberUid", [(ModType.addM, [LVal.str user_id])]) ]) ∧
    (∀ (conf : Conf) (user_dn user_id : Str) (gs : List Str),
        (∀ g ∈ gs, ∃ p, normalize_group_names g conf.group_search_base = .ok p) →
        (add_user_to_groups conf user_dn user_id gs).2 = none ∧
        (add_user_to_groups conf user_dn user_id gs).1.length = gs.length) ∧
    (∀ (srv : List Entry) (conf : Conf) (username : Str) (gs : List Str)
        (p : Str × Str),
        verify_entity_exists srv username conf.user_search_base USER_ID_FIELD
          = .ok p →
        user_group_add srv conf username gs = ([], some .typeError)) ∧
    (∀ (srv : List Entry) (conf : Conf) (g : Str) (us : List Str) (op : Op),
        op ∈ (group_user_add srv conf g us).1 →
        ∃ dn ms, op = Op.modify dn [(lit "uniqueUid", ms)]) := by
  refine ⟨?_, ?_, ?_, ?_⟩
  · intro conf user_dn user_id gs
    induction gs with
    | nil => intro op h; simp [add_user_to_groups] at h
    | cons g gs ih =>
        intro op h
        simp only [add_user_to_groups] at h
        cases hn : normalize_group_names g conf.group_search_base with
        | error e => rw [hn] at h; simp at h
        | ok p =>
            rw [hn] at h
            simp only [List.mem_cons] at h
            rcases h with h | h
            · exact ⟨p.2, h⟩
            · exact ih op h
  · intro conf user_dn user_id gs
    induction gs with
    | nil => intro _; simp [add_user_to_groups]
    | cons g gs ih =>
        intro hall
        obtain ⟨p, hp⟩ := hall g (List.mem_cons_self g gs)
        have ihr := ih (fun g' hg' => hall g' (List.mem_cons_of_mem _ hg'))
        simp only [add_user_to_groups, hp]
        simp [ihr.1, ihr.2]
  · intro srv conf username gs p hv
    simp [user_group_add, hv]
  · intro srv conf g us op hop
    simp only [group_user_add] at hop
    cases hv : verify_entity_exists srv g conf.group_search_base GROUP_ID_FIELD with
    | error e => rw [hv] at hop; simp at hop
    | ok p =>
        obtain ⟨gid, dn⟩ := p
        simp only [hv] at hop
        cases hes : searchEntries srv conf.group_search_base
            (.eq GROUP_ID_FIELD gid) [lit "uniqueId"] with
        | nil => simp only [hes] at hop; simp at hop
        | cons e0 rest =>
            simp only [hes] at hop
            cases hm : newMembersLoop conf (getValues e0 (lit "uniqueId")) us with
            | error e => simp only [hm] at hop; simp at hop
            | ok nm =>
                simp only [hm] at hop
                by_cases hne : nm.isEmpty = true
                · rw [if_pos hne] at hop; simp at hop
                · rw [if_neg hne] at hop
                  simp only [List.mem_singleton] at hop
                  exact ⟨dn, nm, hop⟩

/-- C2 witness: the amended theorem applied to the directory holding
`cn=dev`: the helper completes with one modify for the group `dev`, and
the user-side entry point fails with `TypeError`. -/
theorem C2_membership_add_behavior_witness :
    ((add_user_to_groups confE (lit "udn") (lit "alice") [lit "dev"]).2 = none ∧
      (add_user_to_groups confE (lit "udn") (lit "alice") [lit "dev"]).1.length = 1) ∧
    user_group_add srvDev confE (lit "alice") [lit "dev"]
      = ([], some .typeError) := by
  constructor
  · exact C2_membership_add_behavior.2.1 confE (lit "udn") (lit "alice")
      [lit "dev"]
      (by
        intro g hg
        simp only [List.mem_singleton] at hg
        subst hg
        exact ⟨(lit "dev", lit "cn=dev,ou=groups,dc=example,dc=com"), by decide⟩)
  · exact C2_membership_add_behavior.2.2.1 srvDev confE (lit "alice")
      [lit "dev"] (lit "alice", lit "uid=alice,ou=people,dc=example,dc=com")
      (by decide)

/-! ## Helper lemmas for the `fix_groups` idempotence claim -/

theorem contains_iff_mem {α : Type} [BEq α] [LawfulBEq α] (l : List α) (x : α) :
    l.contains x = true ↔ x ∈ l := by
  rw [List.contains, List.elem_eq_mem]
  simp

theorem lowerEq_trans_left {k' k a : Str} (h : lowerEq k' k = true) :
    lowerEq k a = lowerEq k' a := by
  unfold lowerEq at h ⊢
  rw [← eq_of_beq h]

theorem applyModEntries_adds (l : List Str) (vals : List LVal) :
    applyModEntries vals (l.map (fun u => (ModType.addM, [LVal.str u])))
      = vals ++ l.map LVal.str := by
  induction l generalizing vals with
  | nil => simp [applyModEntries]
  | cons u us ih =>
      simp only [List.map_cons, applyModEntries, List.foldl_cons] at ih ⊢
      rw [ih]
      simp

theorem getValues_applyAttrMod (dn : Str) (attrs : List (Str × List LVal))
    (k : Str) (mes : List (ModType × List LVal)) (a : Str) :
    getValues ⟨dn, applyAttrMod attrs k mes⟩ a
      = (if lowerEq k a = true
          then applyModEntries (getValues ⟨dn, attrs⟩ a) mes
          else getValues ⟨dn, attrs⟩ a) := by
  induction attrs with
  | nil =>
      by_cases h : lowerEq k a = true
      · simp [getValues, getAttr, applyAttrMod, List.find?, h]
      · simp only [Bool.not_eq_true] at h
        simp [getValues, getAttr, applyAttrMod, List.find?, h]
  | cons p rest ih =>
      obtain ⟨k', vs⟩ := p
      by_cases h1 : lowerEq k' k = true
      · by_cases h2 : lowerEq k' a = true
        · have hka : lowerEq k a = true := by
            rw [lowerEq_trans_left h1]; exact h2
          simp [getValues, getAttr, applyAttrMod, List.find?, h1, h2, hka]
        · have hka : lowerEq k a = false := by
            rw [lowerEq_trans_left h1]
            exact Bool.not_eq_true _ ▸ by simpa using h2
          simp [getValues, getAttr, applyAttrMod, List.find?, h1, h2, hka]
      · by_cases h2 : lowerEq k' a = true
        · have hka : lowerEq k a = false := by
            by_contra hc
            rw [Bool.not_eq_false] at hc
            have : lowerEq k' k = true := by
              unfold lowerEq at h2 hc ⊢
              rw [eq_of_beq h2, ← eq_of_beq hc]
              exact beq_self_eq_true _
            exact h1 this
          simp [getValues, getAttr, applyAttrMod, List.find?, h1, h2, hka]
        · have lhs : getValues ⟨dn, applyAttrMod ((k', vs) :: rest) k mes⟩ a
              = getValues ⟨dn, applyAttrMod rest k mes⟩ a := by
            simp [getValues, getAttr, applyAttrMod, List.find?, h1, h2]
          have rhs : getValues ⟨dn, (k', vs) :: rest⟩ a
              = getValues ⟨dn, rest⟩ a := by
            simp [getValues, getAttr, List.find?, h2]
          rw [lhs, ih, rhs]

theorem applyMods_dn (mods : Mods) (e : Entry) : (applyMods e mods).dn = e.dn := by
  induction mods generalizing e with
  | nil => rfl
  | cons p rest ih =>
      show (applyMods ⟨e.dn, applyAttrMod e.attrs p.1 p.2⟩ rest).dn = e.dn
      rw [ih]

theorem getValues_applyMods (mods : Mods) (e : Entry) (a : Str) :
    getValues (applyMods e mods) a
      = mods.foldl
          (fun vals p =>
            if lowerEq p.1 a = true then applyModEntries vals p.2 else vals)
          (getValues e a) := by
  induction mods generalizing e with
  | nil => rfl
  | cons p rest ih =>
      show getValues (applyMods ⟨e.dn, applyAttrMod e.attrs p.1 p.2⟩ rest) a = _
      rw [ih]
      simp only [List.foldl_cons]
      congr 1
      have := getValues_applyAttrMod e.dn e.attrs p.1 p.2 a
      simpa using this

theorem applyOpE_dn (op : Op) (e : Entry) : (applyOpE e op).dn = e.dn := by
  cases op with
  | modify dn mods =>
      by_cases h : (dn == e.dn) = true
      · simp [applyOpE, h, applyMods_dn]
      · simp only [Bool.not_eq_true] at h
        simp [applyOpE, h]
  | add dn cls args => rfl
  | delete dn => rfl

theorem foldl_applyOpE_dn (ops : List Op) (e : Entry) :
    (ops.foldl applyOpE e).dn = e.dn := by
  induction ops generalizing e with
  | nil => rfl
  | cons op rest ih =>
      rw [List.foldl_cons, ih, applyOpE_dn]

theorem applyOpE_of_ne (e : Entry) (op : Op)
    (h : ∀ dn m, op = Op.modify dn m → (dn == e.dn) = false) :
    applyOpE e op = e := by
  cases op with
  | modify dn m => simp [applyOpE, h dn m rfl]
  | add dn cls args => rfl
  | delete dn => rfl

theorem foldl_applyOpE_of_ne (ops : List Op) (e : Entry)
    (h : ∀ op ∈ ops, ∀ dn m, op = Op.modify dn m → (dn == e.dn) = false) :
    ops.foldl applyOpE e = e := by
  induction ops with
  | nil => rfl
  | cons op rest ih =>
      rw [List.foldl_cons,
        applyOpE_of_ne e op (h op (List.mem_cons_self op rest))]
      exact ih (fun op' h' => h op' (List.mem_cons_of_mem _ h'))

theorem ModsOK_nil : ModsOK [] := by
  intro p hp
  simp at hp

theorem ModsOK_append {m1 m2 : Mods} (h1 : ModsOK m1) (h2 : ModsOK m2) :
    ModsOK (m1 ++ m2) := by
  intro p hp
  rcases List.mem_append.mp hp with h | h
  · exact h1 p h
  · exact h2 p h

theorem ModsOK_if {c : Bool} {m : Mods} (h : ModsOK m) :
    ModsOK (if c = true then m else []) := by
  cases c
  · simpa using ModsOK_nil
  · simpa using h

theorem ModsOK_if_neg {c : Bool} {m : Mods} (h : ModsOK m) :
    ModsOK (if c = true then [] else m) := by
  cases c
  · simpa using h
  · simpa using ModsOK_nil

/-- Decomposition of a successful `entryStep`: the member loop succeeded
and the modification set is the concatenation of the three (possibly
empty) parts. -/
theorem entryStep_decomp (conf : Conf) (e : Entry) (g : Int) (m : Mods)
    (g' : Int) (h : entryStep conf e g = .ok (m, g')) :
    ∃ adds,
      memberAdds conf (getValues e (lit "uniqueMember"))
        (getValues e (lit "memberUid")) = .ok adds ∧
      m = (if (!(getValues e (lit "objectClass")).contains
              (LVal.str (lit "posixGroup"))) = true
            then [(lit "objectClass", [(ModType.addM, [LVal.str (lit "posixGroup")])])]
            else [])
        ++ (if ((!(getValues e (lit "objectClass")).contains
                (LVal.str (lit "posixGroup")))
              && (getValues e (lit "gidNumber")).isEmpty) = true
            then [(lit "gidNumber", [(ModType.addM, [LVal.int g])])]
            else [])
        ++ (if adds.isEmpty = true then []
            else [(lit "memberUid",
                adds.map (fun u => (ModType.addM, [LVal.str u])))]) ∧
      g' = (if ((!(getValues e (lit "objectClass")).contains
              (LVal.str (lit "posixGroup")))
            && (getValues e (lit "gidNumber")).isEmpty) = true
          then g + 1 else g) := by
  revert h
  unfold entryStep
  cases hma : memberAdds conf (getValues e (lit "uniqueMember"))
      (getValues e (lit "memberUid")) with
  | error err => intro h; exact absurd h (by simp)
  | ok adds =>
      intro h
      refine ⟨adds, rfl, ?_, ?_⟩
      · have := (Except.ok.inj h)
        exact (congrArg Prod.fst this).symm
      · have := (Except.ok.inj h)
        exact (congrArg Prod.snd this).symm

/-- Every modification set a successful `entryStep` produces touches
only the three repair keys, and adds only `posixGroup` under
`objectClass`. -/
theorem entryStep_modsOK (conf : Conf) (e : Entry) (g : Int) (m : Mods)
    (g' : Int) (h : entryStep conf e g = .ok (m, g')) : ModsOK m := by
  obtain ⟨adds, _hma, hm, _⟩ := entryStep_decomp conf e g m g' h
  subst hm
  refine ModsOK_append (ModsOK_append (ModsOK_if ?_) (ModsOK_if ?_)) (ModsOK_if_neg ?_)
  · intro p hp
    simp only [List.mem_singleton] at hp
    subst hp
    exact ⟨Or.inl rfl, fun _ => rfl⟩
  · intro p hp
    simp only [List.mem_singleton] at hp
    subst hp
    refine ⟨Or.inr (Or.inl rfl), fun hk =>
      absurd (show lit "gidNumber" = lit "objectClass" from hk) (by decide)⟩
  · intro p hp
    simp only [List.mem_singleton] at hp
    subst hp
    refine ⟨Or.inr (Or.inr rfl), fun hk =>
      absurd (show lit "memberUid" = lit "objectClass" from hk) (by decide)⟩

/-- If the member loop succeeds on current values `mem` producing
`adds`, then it succeeds with an empty result on any value list that
contains everything in `mem` and the added names. -/
theorem memberAdds_covered (conf : Conf) (vs : List LVal) :
    ∀ (mem mem2 : List LVal) (adds : List Str),
    memberAdds conf vs mem = .ok adds →
    (∀ x : LVal, mem.contains x = true → mem2.contains x = true) →
    (∀ u ∈ adds, mem2.contains (LVal.str u) = true) →
    memberAdds conf vs mem2 = .ok [] := by
  induction vs with
  | nil => intro mem mem2 adds _ _ _; rfl
  | cons v vs ih =>
      intro mem mem2 adds h hsub hadds
      by_cases hdm : (v == LVal.str (lit "cn=Directory Manager")) = true
      · rw [memberAdds, if_pos hdm] at h ⊢
        exact ih mem mem2 adds h hsub hadds
      · rw [memberAdds, if_neg hdm] at h ⊢
        cases hg : asStr v with
        | error err => simp only [hg] at h; exact Except.noConfusion h
        | ok g =>
            simp only [hg] at h ⊢
            cases hn : normalize_user_names g conf.user_search_base with
            | error err => simp only [hn] at h; exact Except.noConfusion h
            | ok p =>
                obtain ⟨uid, udn⟩ := p
                simp only [hn] at h ⊢
                cases hr : memberAdds conf vs mem with
                | error err => simp only [hr] at h; exact Except.noConfusion h
                | ok rest =>
                    simp only [hr] at h
                    have hrest : ∀ u ∈ rest, mem2.contains (LVal.str u) = true := by
                      intro u hu
                      apply hadds
                      by_cases hc : mem.contains (LVal.str uid) = true
                      · rw [if_pos hc] at h
                        rw [← Except.ok.inj h]; exact hu
                      · rw [if_neg hc] at h
                        rw [← Except.ok.inj h]
                        exact List.mem_cons_of_mem _ hu
                    have hin : mem2.contains (LVal.str uid) = true := by
                      by_cases hc : mem.contains (LVal.str uid) = true
                      · exact hsub _ hc
                      · rw [if_neg hc] at h
                        apply hadds
                        rw [← Except.ok.inj h]
                        exact List.mem_cons_self _ _
                    simp only [ih mem mem2 rest hr hsub hrest, hin, if_true]

theorem foldl_step_if {β : Type} (f : β → Str × List (ModType × List LVal) → β)
    (c : Bool) (x : Str × List (ModType × List LVal)) (b : β) :
    List.foldl f b (if c = true then [x] else [])
      = (if c = true then f b x else b) := by
  cases c <;> simp

theorem foldl_step_if_neg {β : Type} (f : β → Str × List (ModType × List LVal) → β)
    (c : Bool) (x : Str × List (ModType × List LVal)) (b : β) :
    List.foldl f b (if c = true then [] else [x])
      = (if c = true then b else f b x) := by
  cases c <;> simp

/-- An entry that already carries the `posixGroup` class and whose
member loop finds nothing to add needs no modification. -/
theorem entryStep_post (conf : Conf) (e2 : Entry) (g2 : Int)
    (hc : (getValues e2 (lit "objectClass")).contains
        (LVal.str (lit "posixGroup")) = true)
    (hmem : memberAdds conf (getValues e2 (lit "uniqueMember"))
        (getValues e2 (lit "memberUid")) = .ok []) :
    entryStep conf e2 g2 = .ok ([], g2) := by
  unfold entryStep
  simp only [hmem, hc]
  simp

/-- Applying the modification set a successful `entryStep` computed
leaves an entry on which `entryStep` computes the empty set (with any
gid counter). -/
theorem entryStep_apply_idem (conf : Conf) (e : Entry) (g g2 : Int) (m : Mods)
    (g' : Int) (h : entryStep conf e g = .ok (m, g')) :
    entryStep conf (applyMods e m) g2 = .ok ([], g2) := by
  obtain ⟨adds, hma, hm, _hg⟩ := entryStep_decomp conf e g m g' h
  have hOC : getValues (applyMods e m) (lit "objectClass")
      = (if (!(getValues e (lit "objectClass")).contains
            (LVal.str (lit "posixGroup"))) = true
          then getValues e (lit "objectClass") ++ [LVal.str (lit "posixGroup")]
          else getValues e (lit "objectClass")) := by
    rw [hm, getValues_applyMods, List.foldl_append, List.foldl_append,
      foldl_step_if, foldl_step_if, foldl_step_if_neg]
    simp +decide [applyModEntries]
  have hUM : getValues (applyMods e m) (lit "uniqueMember")
      = getValues e (lit "uniqueMember") := by
    rw [hm, getValues_applyMods, List.foldl_append, List.foldl_append,
      foldl_step_if, foldl_step_if, foldl_step_if_neg]
    simp +decide
  have hMU : getValues (applyMods e m) (lit "memberUid")
      = (if adds.isEmpty = true then getValues e (lit "memberUid")
          else getValues e (lit "memberUid") ++ adds.map LVal.str) := by
    rw [hm, getValues_applyMods, List.foldl_append, List.foldl_append,
      foldl_step_if, foldl_step_if, foldl_step_if_neg]
    simp +decide [applyModEntries_adds]
  have hcont : (getValues (applyMods e m) (lit "objectClass")).contains
      (LVal.str (lit "posixGroup")) = true := by
    rw [hOC]
    by_cases hcm : (!(getValues e (lit "objectClass")).contains
        (LVal.str (lit "posixGroup"))) = true
    · rw [if_pos hcm]
      exact (contains_iff_mem _ _).mpr
        (List.mem_append_right _ (List.mem_singleton_self _))
    · rw [if_neg hcm]
      revert hcm
      cases (getValues e (lit "objectClass")).contains
          (LVal.str (lit "posixGroup")) <;> simp
  have hmem : memberAdds conf (getValues (applyMods e m) (lit "uniqueMember"))
      (getValues (applyMods e m) (lit "memberUid")) = .ok [] := by
    rw [hUM, hMU]
    by_cases hae : adds.isEmpty = true
    · rw [if_pos hae]
      have : adds = [] := List.isEmpty_iff.mp hae
      subst this
      exact memberAdds_covered conf _ _ _ [] hma (fun _ hx => hx)
        (fun u hu => absurd hu (List.not_mem_nil u))
    · rw [if_neg hae]
      refine memberAdds_covered conf _ _ _ adds hma ?_ ?_
      · intro x hx
        exact (contains_iff_mem _ _).mpr
          (List.mem_append_left _ ((contains_iff_mem _ _).mp hx))
      · intro u hu
        exact (contains_iff_mem _ _).mpr
          (List.mem_append_right _ (List.mem_map_of_mem _ hu))
  exact entryStep_post conf (applyMods e m) g2 hcont hmem

/-- Decomposition of a successful `fixLoop` step. -/
theorem fixLoop_cons_decomp (conf : Conf) (e : Entry) (es : List Entry)
    (g : Int) (ops : List Op) (h : fixLoop conf (e :: es) g = (ops, none)) :
    ∃ m g' ops2, entryStep conf e g = .ok (m, g') ∧
      fixLoop conf es g' = (ops2, none) ∧
      ops = (if m.isEmpty = true then ops2 else Op.modify e.dn m :: ops2) := by
  simp only [fixLoop] at h
  cases hes : entryStep conf e g with
  | error err =>
      simp only [hes] at h
      exact absurd (congrArg Prod.snd h) (by simp)
  | ok p =>
      obtain ⟨m, g'⟩ := p
      simp only [hes] at h
      cases hrec : fixLoop conf es g' with
      | mk ops2 err2 =>
          simp only [hrec] at h
          by_cases hme : m.isEmpty = true
          · rw [if_pos hme] at h
            have h2 : err2 = none := congrArg Prod.snd h
            have h1 : ops2 = ops := congrArg Prod.fst h
            refine ⟨m, g', ops2, rfl, by rw [hrec, h2], ?_⟩
            rw [if_pos hme, h1]
          · rw [if_neg hme] at h
            have h2 : err2 = none := congrArg Prod.snd h
            have h1 : Op.modify e.dn m :: ops2 = ops := congrArg Prod.fst h
            refine ⟨m, g', ops2, rfl, by rw [hrec, h2], ?_⟩
            rw [if_neg hme, h1]

/-- Main induction for the idempotence of `fix_groups`: running the loop
again on the entries with their own modification sets applied issues no
operation, and every issued operation is a well-shaped modify of one of
the scanned entries. -/
theorem fixLoop_aux (conf : Conf) (es : List Entry) :
    ∀ (g : Int) (ops : List Op),
    (es.map Entry.dn).Nodup →
    fixLoop conf es g = (ops, none) →
    (∀ op ∈ ops, ∃ e, e ∈ es ∧ ∃ m, op = Op.modify e.dn m ∧ ModsOK m) ∧
    (∀ g2 : Int, fixLoop conf (es.map (fun t => ops.foldl applyOpE t)) g2
      = ([], none)) := by
  induction es with
  | nil =>
      intro g ops _ h
      have hops : ops = [] := (congrArg Prod.fst h).symm
      subst hops
      refine ⟨?_, ?_⟩
      · intro op hop
        simp at hop
      · intro g2
        rfl
  | cons e es ih =>
      intro g ops hnd h
      obtain ⟨m, g', ops2, hes, hrec, hops⟩ := fixLoop_cons_decomp conf e es g ops h
      rw [List.map_cons, List.nodup_cons] at hnd
      have hnd1 : e.dn ∉ es.map Entry.dn := hnd.1
      have hnd2 : (es.map Entry.dn).Nodup := hnd.2
      obtain ⟨IH1, IH2⟩ := ih g' ops2 hnd2 hrec
      have hModsOK : ModsOK m := entryStep_modsOK conf e g m g' hes
      have hne : ∀ op ∈ ops2, ∀ dn mm, op = Op.modify dn mm →
          (dn == e.dn) = false := by
        intro op hop dn mm heq
        obtain ⟨t, ht, m', heq', _⟩ := IH1 op hop
        rw [heq] at heq'
        have hdn : dn = t.dn := (Op.modify.inj heq').1
        rw [beq_eq_false_iff_ne, hdn]
        intro hc
        exact hnd1 (hc ▸ List.mem_map_of_mem Entry.dn ht)
      have hA : ops.foldl applyOpE e = applyMods e m := by
        rw [hops]
        by_cases hme : m.isEmpty = true
        · rw [if_pos hme]
          have hm0 : m = [] := List.isEmpty_iff.mp hme
          rw [foldl_applyOpE_of_ne ops2 e hne, hm0]
          rfl
        · rw [if_neg hme, List.foldl_cons]
          have hstep : applyOpE e (Op.modify e.dn m) = applyMods e m := by
            simp [applyOpE]
          rw [hstep]
          apply foldl_applyOpE_of_ne
          intro op hop dn mm heq
          have h' := hne op hop dn mm heq
          rw [applyMods_dn]
          exact h'
      have hB : es.map (fun t => ops.foldl applyOpE t)
          = es.map (fun t => ops2.foldl applyOpE t) := by
        apply List.map_congr_left
        intro t ht
        rw [hops]
        by_cases hme : m.isEmpty = true
        · rw [if_pos hme]
        · rw [if_neg hme, List.foldl_cons]
          congr 1
          apply applyOpE_of_ne
          intro dn mm heq
          have hdn : e.dn = dn := (Op.modify.inj heq).1
          rw [beq_eq_false_iff_ne, ← hdn]
          intro hc
          exact hnd1 (hc ▸ List.mem_map_of_mem Entry.dn ht)
      refine ⟨?_, ?_⟩
      · intro op hop
        rw [hops] at hop
        by_cases hme : m.isEmpty = true
        · rw [if_pos hme] at hop
          obtain ⟨t, ht, hrest⟩ := IH1 op hop
          exact ⟨t, List.mem_cons_of_mem _ ht, hrest⟩
        · rw [if_neg hme] at hop
          rcases List.mem_cons.mp hop with hop | hop
          · exact ⟨e, List.mem_cons_self _ _, m, hop, hModsOK⟩
          · obtain ⟨t, ht, hrest⟩ := IH1 op hop
            exact ⟨t, List.mem_cons_of_mem _ ht, hrest⟩
      · intro g2
        rw [List.map_cons, hA, hB]
        have hstep := entryStep_apply_idem conf e g g2 m g' hes
        simp only [fixLoop, hstep, IH2 g2]
        simp

theorem applyMods_cons (e : Entry) (p : Str × List (ModType × List LVal))
    (rest : Mods) : applyMods e (p :: rest) = applyMods (applyMods e [p]) rest := rfl

theorem getValues_applyMods_single (e : Entry) (k : Str)
    (mes : List (ModType × List LVal)) (a : Str) :
    getValues (applyMods e [(k, mes)]) a
      = (if lowerEq k a = true then applyModEntries (getValues e a) mes
          else getValues e a) :=
  getValues_applyAttrMod e.dn e.attrs k mes a

/-- A well-shaped modification set does not change whether the entry
matches the `groupOfUniqueNames` objectclass filter. -/
theorem entryMatches_goUN_applyMods (m : Mods) :
    ∀ (e : Entry), ModsOK m →
    entryMatches (applyMods e m)
        (.eq (lit "objectclass") (lit "groupOfUniqueNames"))
      = entryMatches e (.eq (lit "objectclass") (lit "groupOfUniqueNames")) := by
  induction m with
  | nil => intro e _; rfl
  | cons p rest ih =>
      intro e hm
      obtain ⟨k, mes⟩ := p
      rw [applyMods_cons,
        ih _ (fun q hq => hm q (List.mem_cons_of_mem _ hq))]
      have hp := hm (k, mes) (List.mem_cons_self _ rest)
      show (getValues (applyMods e [(k, mes)]) (lit "objectclass")).any
          (fun x => lvalMatches x (lit "groupOfUniqueNames"))
        = (getValues e (lit "objectclass")).any
          (fun x => lvalMatches x (lit "groupOfUniqueNames"))
      rcases hp.1 with hk | hk | hk
      · have hv := hp.2 hk
        subst hk
        subst hv
        rw [getValues_applyMods_single, if_pos (by decide)]
        have happ : applyModEntries (getValues e (lit "objectclass"))
            [(ModType.addM, [LVal.str (lit "posixGroup")])]
            = getValues e (lit "objectclass") ++ [LVal.str (lit "posixGroup")] := rfl
        rw [happ, List.any_append]
        simp +decide [lvalMatches]
      · subst hk
        rw [getValues_applyMods_single, if_neg (by decide)]
      · subst hk
        rw [getValues_applyMods_single, if_neg (by decide)]

/-- A batch of well-shaped operations does not change whether an entry
matches the `groupOfUniqueNames` filter. -/
theorem entryMatches_goUN_foldl (ops : List Op)
    (hops : ∀ op ∈ ops, OpOK op) :
    ∀ e : Entry, entryMatches (ops.foldl applyOpE e)
        (.eq (lit "objectclass") (lit "groupOfUniqueNames"))
      = entryMatches e (.eq (lit "objectclass") (lit "groupOfUniqueNames")) := by
  induction ops with
  | nil => intro e; rfl
  | cons op rest ih =>
      intro e
      rw [List.foldl_cons,
        ih (fun q hq => hops q (List.mem_cons_of_mem _ hq))]
      cases op with
      | modify dn mods =>
          by_cases h : (dn == e.dn) = true
          · rw [show applyOpE e (Op.modify dn mods) = applyMods e mods from by
              simp [applyOpE, h]]
            exact entryMatches_goUN_applyMods mods e
              (hops _ (List.mem_cons_self _ _) dn mods rfl)
          · simp only [Bool.not_eq_true] at h
            rw [show applyOpE e (Op.modify dn mods) = e from by
              simp [applyOpE, h]]
      | add dn cls args => rfl
      | delete dn => rfl

/-- Restriction to the repair attributes commutes with applying one
well-shaped single-key modification. -/
theorem restrict_apply_single (e : Entry) (k : Str)
    (mes : List (ModType × List LVal))
    (hk : k = lit "objectClass" ∨ k = lit "gidNumber" ∨ k = lit "memberUid") :
    restrictEntry (applyMods e [(k, mes)]) fixAttrs
      = applyMods (restrictEntry e fixAttrs) [(k, mes)] := by
  rcases hk with hk | hk | hk <;> subst hk <;>
    (simp only [restrictEntry, fixAttrs, List.map_cons, List.map_nil,
      getValues_applyMods_single]
     simp +decide only []
     simp +decide only [applyMods, List.foldl, applyAttrMod]
     simp)

/-- Restriction commutes with applying a whole well-shaped modification
set. -/
theorem restrict_applyMods_comm (m : Mods) :
    ∀ (e : Entry), ModsOK m →
    restrictEntry (applyMods e m) fixAttrs
      = applyMods (restrictEntry e fixAttrs) m := by
  induction m with
  | nil => intro e _; rfl
  | cons p rest ih =>
      intro e hm
      obtain ⟨k, mes⟩ := p
      rw [applyMods_cons, ih _ (fun q hq => hm q (List.mem_cons_of_mem _ hq)),
        applyMods_cons (restrictEntry e fixAttrs)]
      congr 1
      exact restrict_apply_single e k mes (hm (k, mes) (List.mem_cons_self _ _)).1

theorem restrict_applyOpE_comm (op : Op) (hop : OpOK op) (e : Entry) :
    restrictEntry (applyOpE e op) fixAttrs
      = applyOpE (restrictEntry e fixAttrs) op := by
  cases op with
  | modify dn mods =>
      have hdn : (restrictEntry e fixAttrs).dn = e.dn := rfl
      by_cases h : (dn == e.dn) = true
      · rw [show applyOpE e (Op.modify dn mods) = applyMods e mods from by
          simp [applyOpE, h]]
        rw [show applyOpE (restrictEntry e fixAttrs) (Op.modify dn mods)
            = applyMods (restrictEntry e fixAttrs) mods from by
          simp [applyOpE, hdn, h]]
        exact restrict_applyMods_comm mods e (hop dn mods rfl)
      · simp only [Bool.not_eq_true] at h
        rw [show applyOpE e (Op.modify dn mods) = e from by simp [applyOpE, h]]
        rw [show applyOpE (restrictEntry e fixAttrs) (Op.modify dn mods)
            = restrictEntry e fixAttrs from by simp [applyOpE, hdn, h]]
  | add dn cls args => rfl
  | delete dn => rfl

theorem restrict_foldl_comm (ops : List Op) (hops : ∀ op ∈ ops, OpOK op) :
    ∀ e : Entry, restrictEntry (ops.foldl applyOpE e) fixAttrs
      = ops.foldl applyOpE (restrictEntry e fixAttrs) := by
  induction ops with
  | nil => intro e; rfl
  | cons op rest ih =>
      intro e
      rw [List.foldl_cons, List.foldl_cons,
        ih (fun q hq => hops q (List.mem_cons_of_mem _ hq)),
        restrict_applyOpE_comm op (hops op (List.mem_cons_self _ _)) e]

theorem filter_map_comm_entries (l : List Entry) (F : Entry → Entry)
    (q : Entry → Bool) (hq : ∀ e, q (F e) = q e) :
    (l.map F).filter q = (l.filter q).map F := by
  rw [List.filter_map]
  exact congrArg (List.map F) (List.filter_congr (fun a _ => hq a))

/-- C9.  `fix_groups` is idempotent: when a run against a directory with
distinct DNs succeeds with operations `ops`, running it again on the
directory with those operations applied issues no modify call (every
entry's computed modification set is empty). -/
theorem C9_fix_groups_idempotent (srv : List Entry) (conf : Conf)
    (ops : List Op) (hnd : (srv.map Entry.dn).Nodup)
    (h : fix_groups srv conf = (ops, none)) :
    fix_groups (applyOps srv ops) conf = ([], none) := by
  have h' : fixLoop conf
      ((srv.filter (fun e => inBase e.dn conf.group_search_base &&
          entryMatches e (.eq (lit "objectclass") (lit "groupOfUniqueNames")))).map
        (fun e => restrictEntry e fixAttrs)) 20000 = (ops, none) := h
  have hndsl : ((((srv.filter (fun e => inBase e.dn conf.group_search_base &&
      entryMatches e (.eq (lit "objectclass") (lit "groupOfUniqueNames")))).map
        (fun e => restrictEntry e fixAttrs))).map Entry.dn).Nodup := by
    rw [List.map_map]
    have hfn : (Entry.dn ∘ fun e => restrictEntry e fixAttrs) = Entry.dn :=
      funext (fun e => rfl)
    rw [hfn]
    exact List.Nodup.sublist ((List.filter_sublist srv).map Entry.dn) hnd
  obtain ⟨H1, H2⟩ := fixLoop_aux conf _ 20000 ops hndsl h'
  have hOK : ∀ op ∈ ops, OpOK op := by
    intro op hop dn m heq
    obtain ⟨t, _, m', heq', hm'⟩ := H1 op hop
    rw [heq] at heq'
    obtain ⟨_, hm⟩ := Op.modify.inj heq'
    rw [hm]
    exact hm'
  have hq : ∀ e : Entry,
      (inBase (ops.foldl applyOpE e).dn conf.group_search_base &&
        entryMatches (ops.foldl applyOpE e)
          (.eq (lit "objectclass") (lit "groupOfUniqueNames")))
      = (inBase e.dn conf.group_search_base &&
        entryMatches e (.eq (lit "objectclass") (lit "groupOfUniqueNames"))) := by
    intro e
    rw [foldl_applyOpE_dn, entryMatches_goUN_foldl ops hOK e]
  have hsearch : searchEntries (applyOps srv ops) conf.group_search_base
      (.eq (lit "objectclass") (lit "groupOfUniqueNames")) fixAttrs
      = ((srv.filter (fun e => inBase e.dn conf.group_search_base &&
          entryMatches e (.eq (lit "objectclass") (lit "groupOfUniqueNames")))).map
          (fun e => restrictEntry e fixAttrs)).map
          (fun t => ops.foldl applyOpE t) := by
    show ((srv.map (fun e => ops.foldl applyOpE e)).filter _).map
        (fun e => restrictEntry e fixAttrs) = _
    rw [filter_map_comm_entries srv (fun e => ops.foldl applyOpE e) _ hq,
      List.map_map, List.map_map]
    apply List.map_congr_left
    intro t _
    exact restrict_foldl_comm ops hOK t
  show fixLoop conf (searchEntries (applyOps srv ops) conf.group_search_base
      (.eq (lit "objectclass") (lit "groupOfUniqueNames")) fixAttrs) 20000
    = ([], none)
  rw [hsearch]
  exact H2 20000

/-- C9 witness: against `srvFix` (one group lacking `posixGroup` with
one real member), the first run issues the `opsFix` modify and a second
run on the repaired directory issues nothing. -/
theorem C9_fix_groups_idempotent_witness :
    fix_groups (applyOps srvFix opsFix) confE = ([], none) :=
  C9_fix_groups_idempotent srvFix confE opsFix (by decide) (by decide)

end Ldapcli
